import Mathlib

/-!
Verification of the MD2PDF markdown-to-PDF/Word converter.

This file gives a shallow embedding of the core logic of the repository
(emoji candidate normalization and asset resolution, code-block highlighting
post-processing, style/theme discovery and composition, output-path extension
normalization, header composition and document assembly, watermark
embedding/extraction, and the Word DOM walk) and proves or refutes the
specification claims about it.

Python strings are modelled as Lean `String`s (lists of characters);
Python string methods that the code relies on (`str.split("-")`, `"-".join`,
`str.strip`, `str.title`, `str.replace`, `html.escape`, `pathlib` suffix
handling) are embedded as executable Lean functions below.  External
collaborators (the pygments highlighter, the filesystem, the markdown engine)
are passed in as explicit function parameters.
-/

/-! ## Python string primitives -/

/-- Characters counted as whitespace by Python's `str.strip` and `\s`
(ASCII range, which covers all inputs handled here). -/
def isPySpace (c : Char) : Bool :=
  c = ' ' || c = '\t' || c = '\n' || c = '\x0d' || c = '\x0b' || c = '\x0c'

/-- Python `s.split("-")` on the character list: splits on every dash,
keeping empty pieces, and yields `[[]]` on the empty list. -/
def splitDashL : List Char → List (List Char)
  | [] => [[]]
  | c :: cs =>
    if c = '-' then [] :: splitDashL cs
    else
      match splitDashL cs with
      | [] => [[c]]
      | p :: ps => (c :: p) :: ps

/-- Python `s.split("-")` at the `String` level. -/
def splitDash (s : String) : List String :=
  (splitDashL s.data).map List.asString

/-- Python `"-".join(parts)` on character lists. -/
def joinDashL : List (List Char) → List Char
  | [] => []
  | [p] => p
  | p :: q :: rest => p ++ '-' :: joinDashL (q :: rest)

/-- Python `"-".join(parts)` at the `String` level. -/
def joinDash : List String → String
  | [] => ""
  | [p] => p
  | p :: q :: rest => p ++ "-" ++ joinDash (q :: rest)

theorem splitDashL_ne_nil (l : List Char) : splitDashL l ≠ [] := by
  induction l with
  | nil => simp [splitDashL]
  | cons c cs ih =>
    simp only [splitDashL]
    split
    · simp
    · cases h : splitDashL cs with
      | nil => simp
      | cons p ps => simp

theorem splitDash_ne_nil (s : String) : splitDash s ≠ [] := by
  unfold splitDash
  intro h
  exact splitDashL_ne_nil s.data (by simpa using h)

theorem joinDashL_splitDashL (l : List Char) : joinDashL (splitDashL l) = l := by
  induction l with
  | nil => simp [splitDashL, joinDashL]
  | cons c cs ih =>
    simp only [splitDashL]
    split
    · rename_i hc
      subst hc
      cases h : splitDashL cs with
      | nil => exact absurd h (splitDashL_ne_nil cs)
      | cons p ps =>
        rw [h] at ih
        simp [joinDashL, ← ih]
    · cases h : splitDashL cs with
      | nil => exact absurd h (splitDashL_ne_nil cs)
      | cons p ps =>
        rw [h] at ih
        cases ps with
        | nil => simp_all [joinDashL]
        | cons q qs => simp_all [joinDashL]

theorem data_asString (l : List Char) : (List.asString l).data = l := rfl

theorem asString_data (s : String) : s.data.asString = s := rfl

theorem asString_append (a b : List Char) :
    (a ++ b).asString = a.asString ++ b.asString := rfl

theorem joinDash_map_asString (ll : List (List Char)) :
    joinDash (ll.map List.asString) = (joinDashL ll).asString := by
  induction ll with
  | nil => rfl
  | cons p rest ih =>
    cases rest with
    | nil => rfl
    | cons q qs =>
      simp only [List.map, joinDash, joinDashL] at *
      rw [ih]
      apply String.ext
      simp [String.data_append, data_asString]

/-- Joining the pieces of a dash-split recovers the original string
(Python `"-".join(s.split("-")) == s`). -/
theorem joinDash_splitDash (s : String) : joinDash (splitDash s) = s := by
  unfold splitDash
  rw [joinDash_map_asString, joinDashL_splitDashL, asString_data]

theorem joinDash_append_singleton (ps : List String) (x : String) (h : ps ≠ []) :
    joinDash (ps ++ [x]) = joinDash ps ++ "-" ++ x := by
  induction ps with
  | nil => exact absurd rfl h
  | cons p rest ih =>
    cases rest with
    | nil => simp [joinDash]
    | cons q qs =>
      have hq := ih (by simp)
      simp only [List.cons_append, joinDash] at *
      rw [show qs.append [x] = qs ++ [x] from rfl, hq]
      simp [String.append_assoc]

/-! ## Emoji candidate generation and resolution
(`src/md2pdf/core/processors/markdown_processor.py`, `_replace_emojis_with_images`) -/

/-- The inner `add` helper of `normalize_candidates`: append a candidate
unless it is empty or already present. -/
def addCandidate (cs : List String) (c : String) : List String :=
  if c ≠ "" ∧ c ∉ cs then cs ++ [c] else cs

/-- Python `codepoints.split("-") if codepoints else []` at the top of
`normalize_candidates`. -/
def emojiParts (codepoints : String) : List String :=
  if codepoints = "" then [] else splitDash codepoints

/-- State of the `candidates` list after `add(codepoints)`. -/
def ncStage1 (codepoints : String) : List String :=
  addCandidate [] codepoints

/-- State of the `candidates` list after the `parts_no_fe` step (remove all
`fe0f`/`fe0e` tokens). -/
def ncStage2 (codepoints : String) : List String :=
  if ((emojiParts codepoints).filter fun p => !(p == "fe0f" || p == "fe0e")) ≠ [] then
    addCandidate (ncStage1 codepoints)
      (joinDash ((emojiParts codepoints).filter fun p => !(p == "fe0f" || p == "fe0e")))
  else ncStage1 codepoints

/-- State of the `candidates` list after the `fe0e` → `fe0f` swap step. -/
def ncStage3 (codepoints : String) : List String :=
  if "fe0e" ∈ emojiParts codepoints then
    addCandidate (ncStage2 codepoints)
      (joinDash ((emojiParts codepoints).map fun p => if p = "fe0e" then "fe0f" else p))
  else ncStage2 codepoints

/-- State of the `candidates` list after the append-`fe0f` and
insert-`fe0f`-after-first steps (taken only when no `fe0f` is present). -/
def ncStage4 (codepoints : String) : List String :=
  if emojiParts codepoints ≠ [] ∧ ¬ ("fe0f" ∈ emojiParts codepoints) then
    addCandidate
      (addCandidate (ncStage3 codepoints) (joinDash (emojiParts codepoints ++ ["fe0f"])))
      (joinDash
        (match emojiParts codepoints with | [] => [] | p :: rest => p :: "fe0f" :: rest))
  else ncStage3 codepoints

/-- Embedding of `normalize_candidates` from
`markdown_processor.py`: generates the ordered list of Twemoji filename
variants for a hyphen-joined codepoint string.  The final step is the keycap
rule (ensure `fe0f` before a trailing `20e3`). -/
def normalize_candidates (codepoints : String) : List String :=
  if (emojiParts codepoints).getLast? = some "20e3" ∧
      "fe0f" ∉ (emojiParts codepoints).dropLast then
    addCandidate (ncStage4 codepoints)
      (joinDash ((emojiParts codepoints).dropLast ++ ["fe0f", "20e3"]))
  else ncStage4 codepoints

/-- The candidate list exactly as the specification sentence describes it:
the exact string; the string with all fe0f/fe0e tokens removed; the
fe0e-to-fe0f swap when fe0e is present; the fe0f-appended and
fe0f-inserted-after-first variants when no fe0f is present; and the keycap
variant.  This definition follows the claim's words (for comparison with
`normalize_candidates`, which follows the source). -/
def specCandidateVariants (codepoints : String) : List String :=
  let parts := splitDash codepoints
  let removed := joinDash (parts.filter fun p => !(p == "fe0f" || p == "fe0e"))
  let swapped := if "fe0e" ∈ parts then
      [joinDash (parts.map fun p => if p = "fe0e" then "fe0f" else p)]
    else []
  let appended := if "fe0f" ∉ parts then
      [joinDash (parts ++ ["fe0f"]),
       joinDash (match parts with | [] => [] | p :: rest => p :: "fe0f" :: rest)]
    else []
  let keycap := if parts.getLast? = some "20e3" ∧ "fe0f" ∉ parts.dropLast then
      [joinDash (parts.dropLast ++ ["fe0f", "20e3"])]
    else []
  [codepoints, removed] ++ swapped ++ appended ++ keycap

/-- Suppress duplicates, keeping first occurrences (and nothing else). -/
def dedupKeepFirst (l : List String) : List String :=
  l.foldl (fun acc c => if c ∉ acc then acc ++ [c] else acc) []

/-- Suppress duplicates and empty strings, keeping first occurrences
(the effect of folding the source's `add` helper over a variant list). -/
def dedupDropEmpty (l : List String) : List String :=
  l.foldl addCandidate []

/-- The local-asset probe loop of `replacement`: try each candidate in order
against the local asset directory, returning the first hit.
`localExists c` abstracts `(Path("assets/twemoji/svg") / f"{c}.svg").exists()`. -/
def probeLocal (localExists : String → Bool) : List String → Option String
  | [] => none
  | c :: cs => if localExists c then some c else probeLocal localExists cs

/-- Embedding of the `for ... else` resolution in `replacement`: the first
candidate with a local asset wins; otherwise fall back to the CDN URL built
from the first candidate of the list. -/
def replacementSrc (localExists : String → Bool) (base : String) : String :=
  match probeLocal localExists (normalize_candidates base) with
  | some c => "assets/twemoji/svg/" ++ c ++ ".svg"
  | none =>
    "https://twemoji.maxcdn.com/v/latest/svg/" ++
      ((normalize_candidates base).headD "") ++ ".svg"

/-- Python `html.escape` with its default `quote=True`. -/
def pyHtmlEscape (s : String) : String :=
  (s.data.flatMap fun c =>
    if c = '&' then "&amp;".data
    else if c = '<' then "&lt;".data
    else if c = '>' then "&gt;".data
    else if c = '"' then "&quot;".data
    else if c = '\x27' then "&#x27;".data
    else [c]).asString

/-- Lowercase hexadecimal rendering of a code point (Python `f"{ord(ch):x}"`). -/
def hexLower (n : Nat) : String :=
  (Nat.toDigits 16 n).asString

/-- Embedding of `to_twemoji_codepoints`: hyphen-joined lowercase hex
codepoints of a grapheme cluster. -/
def to_twemoji_codepoints (grapheme : String) : String :=
  joinDash (grapheme.data.map fun ch => hexLower ch.toNat)

/-- Embedding of `replacement`: the inline `<img>` element emitted for one
grapheme cluster. -/
def emojiReplacement (localExists : String → Bool) (grapheme : String) : String :=
  let base := to_twemoji_codepoints grapheme
  let src := replacementSrc localExists base
  "<img class=\"emoji\" draggable=\"false\" alt=\"" ++ pyHtmlEscape grapheme ++
    "\" src=\"" ++ src ++ "\" style=\"width:1em;height:1em;" ++
    "vertical-align:-0.15em;margin:0 0.05em;\" />"

theorem addCandidate_empty_string (cs : List String) : addCandidate cs "" = cs := by
  simp [addCandidate]

theorem addCandidate_nil_of_ne (s : String) (hs : s ≠ "") :
    addCandidate [] s = [s] := by
  simp [addCandidate, hs]

theorem addCandidate_mem (cs : List String) (x : String) (h : x ∈ cs) :
    addCandidate cs x = cs := by
  simp [addCandidate, h]

theorem prefix_addCandidate (cs : List String) (x : String) :
    cs <+: addCandidate cs x := by
  unfold addCandidate
  split
  · exact ⟨[x], rfl⟩
  · exact ⟨[], by simp⟩

theorem prefix_addCandidate_ite (cs : List String) (c : Prop) [Decidable c]
    (x : String) : cs <+: (if c then addCandidate cs x else cs) := by
  split
  · exact prefix_addCandidate cs x
  · exact ⟨[], by simp⟩

theorem if_ne_nil_addCandidate_joinDash (cs : List String) (ps : List String) :
    (if ps ≠ [] then addCandidate cs (joinDash ps) else cs) =
      addCandidate cs (joinDash ps) := by
  cases ps with
  | nil => simp [joinDash, addCandidate_empty_string]
  | cons p qs => simp

theorem foldl_addCandidate_single (cs : List String) (c : Prop) [Decidable c]
    (x : String) :
    List.foldl addCandidate cs (if c then [x] else []) =
      if c then addCandidate cs x else cs := by
  split <;> simp

theorem foldl_addCandidate_pair (cs : List String) (c : Prop) [Decidable c]
    (x y : String) :
    List.foldl addCandidate cs (if c then [x, y] else []) =
      if c then addCandidate (addCandidate cs x) y else cs := by
  split <;> simp

theorem probeLocal_first_hit (le : String → Bool) (cs₁ : List String)
    (c : String) (cs₂ : List String) (h1 : ∀ d ∈ cs₁, le d = false)
    (h2 : le c = true) : probeLocal le (cs₁ ++ c :: cs₂) = some c := by
  induction cs₁ with
  | nil => simp [probeLocal, h2]
  | cons d ds ih =>
    have hd : le d = false := h1 d (by simp)
    simp only [List.cons_append, probeLocal, hd]
    simp only [Bool.false_eq_true, if_false]
    exact ih fun e he => h1 e (by simp [he])

theorem probeLocal_none (le : String → Bool) (cs : List String)
    (h : ∀ c ∈ cs, le c = false) : probeLocal le cs = none := by
  induction cs with
  | nil => rfl
  | cons d ds ih =>
    have hd : le d = false := h d (by simp)
    simp only [probeLocal, hd, Bool.false_eq_true, if_false]
    exact ih fun e he => h e (by simp [he])

theorem prefix_ncStage2 (s : String) : ncStage1 s <+: ncStage2 s := by
  unfold ncStage2
  exact prefix_addCandidate_ite _ _ _

theorem prefix_ncStage3 (s : String) : ncStage2 s <+: ncStage3 s := by
  unfold ncStage3
  exact prefix_addCandidate_ite _ _ _

theorem prefix_ncStage4 (s : String) : ncStage3 s <+: ncStage4 s := by
  unfold ncStage4
  split
  · exact ((prefix_addCandidate _ _).trans (prefix_addCandidate _ _))
  · exact ⟨[], by simp⟩

theorem prefix_normalize_candidates (s : String) :
    ncStage4 s <+: normalize_candidates s := by
  unfold normalize_candidates
  exact prefix_addCandidate_ite _ _ _

/-- The head of the candidate list is always the exact codepoint string. -/
theorem normalize_candidates_head (s : String) (hs : s ≠ "") :
    ∃ t, normalize_candidates s = s :: t := by
  have h1 : ncStage1 s = [s] := addCandidate_nil_of_ne s hs
  have hp : ncStage1 s <+: normalize_candidates s :=
    ((prefix_ncStage2 s).trans ((prefix_ncStage3 s).trans
      ((prefix_ncStage4 s).trans (prefix_normalize_candidates s))))
  rw [h1] at hp
  obtain ⟨t, ht⟩ := hp
  exact ⟨t, ht.symm⟩

/-- Under the clean scenario hypotheses (no `fe0f`, no `fe0e` token), the
candidate list starts with the exact string followed directly by the
`fe0f`-appended variant. -/
theorem normalize_candidates_scenario (s : String) (hs : s ≠ "")
    (hfe0f : "fe0f" ∉ splitDash s) (hfe0e : "fe0e" ∉ splitDash s) :
    ∃ t, normalize_candidates s = s :: (s ++ "-fe0f") :: t := by
  have hparts : emojiParts s = splitDash s := if_neg hs
  have h1 : ncStage1 s = [s] := addCandidate_nil_of_ne s hs
  have hfilter : (splitDash s).filter (fun p => !(p == "fe0f" || p == "fe0e")) =
      splitDash s := by
    refine List.filter_eq_self.mpr fun p hp => ?_
    have h1 : p ≠ "fe0f" := fun h => hfe0f (h ▸ hp)
    have h2 : p ≠ "fe0e" := fun h => hfe0e (h ▸ hp)
    simp [h1, h2]
  have h2 : ncStage2 s = [s] := by
    unfold ncStage2
    rw [hparts, hfilter, h1, joinDash_splitDash]
    split <;> simp [addCandidate_mem]
  have h3 : ncStage3 s = [s] := by
    unfold ncStage3
    rw [hparts, h2, if_neg]
    simpa using hfe0e
  have happ : joinDash (splitDash s ++ ["fe0f"]) = s ++ "-fe0f" := by
    rw [joinDash_append_singleton _ _ (splitDash_ne_nil s), joinDash_splitDash,
      String.append_assoc]
    rfl
  have hlen5 : ("-fe0f" : String).length = 5 := rfl
  have hne : s ++ "-fe0f" ≠ s := by
    intro h
    have hl := congrArg String.length h
    rw [String.length_append, hlen5] at hl
    omega
  have h4 : ∃ t, ncStage4 s = [s, s ++ "-fe0f"] ++ t := by
    unfold ncStage4
    rw [hparts, if_pos ⟨splitDash_ne_nil s, by simpa using hfe0f⟩, h3, happ]
    have hadd : addCandidate [s] (s ++ "-fe0f") = [s, s ++ "-fe0f"] := by
      have hne' : s ++ "-fe0f" ≠ "" := by
        intro h
        have hl := congrArg String.length h
        rw [String.length_append, hlen5] at hl
        simp at hl
      simp [addCandidate, hne', hne]
    rw [hadd]
    obtain ⟨t, ht⟩ := prefix_addCandidate [s, s ++ "-fe0f"]
      (joinDash
        (match splitDash s with | [] => [] | p :: rest => p :: "fe0f" :: rest))
    exact ⟨t, ht.symm⟩
  obtain ⟨t, ht⟩ := h4
  obtain ⟨u, hu⟩ := prefix_normalize_candidates s
  rw [ht] at hu
  exact ⟨t ++ u, by rw [← hu]; simp⟩

/-- Claim C1: for every emoji codepoint string, the filename candidates are
probed in order against the local asset directory and the first existing
candidate is used as the image source; if none exists, the source is the CDN
URL built from the first candidate (the exact codepoint string).  In
particular, when the exact string has no local file but its fe0f-appended
variant does (the variant exists when the cluster carries no variation
selector), the resolved source is the local asset path of that variant. -/
theorem emoji_local_first_cdn_fallback (localExists : String → Bool)
    (base : String) (hs : base ≠ "") :
    (∀ cs₁ c cs₂, normalize_candidates base = cs₁ ++ c :: cs₂ →
      (∀ d ∈ cs₁, localExists d = false) → localExists c = true →
      replacementSrc localExists base = "assets/twemoji/svg/" ++ c ++ ".svg") ∧
    ((∀ c ∈ normalize_candidates base, localExists c = false) →
      replacementSrc localExists base =
        "https://twemoji.maxcdn.com/v/latest/svg/" ++ base ++ ".svg") ∧
    ("fe0f" ∉ splitDash base → "fe0e" ∉ splitDash base →
      localExists base = false → localExists (base ++ "-fe0f") = true →
      replacementSrc localExists base =
        "assets/twemoji/svg/" ++ (base ++ "-fe0f") ++ ".svg") := by
  refine ⟨?_, ?_, ?_⟩
  · intro cs₁ c cs₂ hdec h1 h2
    unfold replacementSrc
    rw [hdec, probeLocal_first_hit localExists cs₁ c cs₂ h1 h2]
  · intro hnone
    unfold replacementSrc
    rw [probeLocal_none localExists _ hnone]
    obtain ⟨t, ht⟩ := normalize_candidates_head base hs
    rw [ht]
    rfl
  · intro hfe0f hfe0e hbase hvar
    obtain ⟨t, ht⟩ := normalize_candidates_scenario base hs hfe0f hfe0e
    unfold replacementSrc
    rw [ht]
    simp only [probeLocal, hbase, hvar, Bool.false_eq_true, if_false, if_true]

/-- Witness for C1: for the cluster `☺` (codepoints `263a`, no variation
selector) with only the `263a-fe0f` asset present locally, the resolved
source is the local path of the fe0f-appended variant, not the CDN URL. -/
theorem emoji_local_first_cdn_fallback_witness :
    replacementSrc (fun c => c == "263a-fe0f") "263a" =
      "assets/twemoji/svg/" ++ ("263a" ++ "-fe0f") ++ ".svg" :=
  (emoji_local_first_cdn_fallback (fun c => c == "263a-fe0f") "263a"
    (by decide)).2.2 (by decide) (by decide) (by decide) (by decide)

/-- Counterexample to C2 as stated: for the (non-empty) codepoint string
`fe0f`, the list described by the claim contains the empty string as its
second entry (the string with all fe0f/fe0e tokens removed), while the code
suppresses empty variants, so the generated list is not the claim's list with
only duplicates suppressed. -/
theorem emoji_candidate_list_exact_counterexample :
    normalize_candidates "fe0f" ≠ dedupKeepFirst (specCandidateVariants "fe0f") ∧
    normalize_candidates "fe0f" = ["fe0f"] ∧
    dedupKeepFirst (specCandidateVariants "fe0f") = ["fe0f", ""] := by
  refine ⟨by decide, by decide, by decide⟩

/-- Claim C2 (amended): for every non-empty hyphen-joined codepoint string,
the candidate list generated by `normalize_candidates` is exactly the
claim's ordered variant list with duplicates AND empty variants suppressed,
keeping first occurrences. -/
theorem emoji_candidate_list_amended (s : String) (hs : s ≠ "") :
    normalize_candidates s = dedupDropEmpty (specCandidateVariants s) := by
  have hparts : emojiParts s = splitDash s := if_neg hs
  have hne : splitDash s ≠ [] := splitDash_ne_nil s
  unfold dedupDropEmpty specCandidateVariants
  simp only
  rw [List.foldl_append, List.foldl_append, List.foldl_append]
  simp only [List.foldl_cons, List.foldl_nil]
  simp only [foldl_addCandidate_single, foldl_addCandidate_pair]
  unfold normalize_candidates ncStage4 ncStage3 ncStage2 ncStage1
  rw [hparts]
  simp only [hne, ne_eq, not_false_eq_true, true_and,
    if_ne_nil_addCandidate_joinDash]

/-- Witness for the amended C2 at the grimacing-face cluster `1f600`. -/
theorem emoji_candidate_list_amended_witness :
    normalize_candidates "1f600" = dedupDropEmpty (specCandidateVariants "1f600") :=
  emoji_candidate_list_amended "1f600" (by decide)

example : splitDash "1f1e6-1f1e8" = ["1f1e6", "1f1e8"] := by decide

/-! ## Code-block highlighting post-processor
(`src/md2pdf/core/processors/markdown_processor.py`, `_highlight_code_blocks`)

The pass runs `re.sub` with the pattern
`<pre><code class="language-(\w+)">(.*?)</code></pre>` (DOTALL) over the
generated HTML.  The matcher below implements exactly that pattern: the fixed
literal prefix, a greedy non-empty word run, the literal quote-bracket, and a
lazy body ended by the first occurrence of the closing literal. -/

/-- Python regex `\w` for the ASCII range. -/
def isWordChar (c : Char) : Bool := c.isAlphanum || c = '_'

/-- Strip an expected literal from the front of the input, returning the
remainder on success. -/
def stripLit : List Char → List Char → Option (List Char)
  | [], s => some s
  | _ :: _, [] => none
  | l :: ls, c :: cs => if c = l then stripLit ls cs else none

theorem stripLit_append (lit r : List Char) : stripLit lit (lit ++ r) = some r := by
  induction lit with
  | nil => rfl
  | cons l ls ih => simp [stripLit, ih]

theorem stripLit_eq_append {lit s r : List Char} (h : stripLit lit s = some r) :
    s = lit ++ r := by
  induction lit generalizing s with
  | nil => simpa [stripLit] using h
  | cons l ls ih =>
    cases s with
    | nil => simp [stripLit] at h
    | cons c cs =>
      by_cases hc : c = l
      · subst hc
        simp only [stripLit, if_pos rfl] at h
        simpa using ih h
      · simp [stripLit, hc] at h

theorem stripLit_head_ne {t : Char} {ts : List Char} {c : Char} {cs : List Char}
    (h : c ≠ t) : stripLit (t :: ts) (c :: cs) = none := by
  simp [stripLit, h]

/-- Split the input at the first occurrence of `term`, returning the part
before it and the part after it (the lazy-match/first-occurrence semantics of
`(.*?)term` in a regex). -/
def splitAtFirst (term : List Char) : List Char → Option (List Char × List Char)
  | [] =>
    match stripLit term [] with
    | some r => some ([], r)
    | none => none
  | c :: cs =>
    match stripLit term (c :: cs) with
    | some rest => some ([], rest)
    | none =>
      match splitAtFirst term cs with
      | some (a, b) => some (c :: a, b)
      | none => none

theorem splitAtFirst_eq_append {term s : List Char} {a b : List Char}
    (h : splitAtFirst term s = some (a, b)) : s = a ++ term ++ b := by
  induction s generalizing a with
  | nil =>
    simp only [splitAtFirst] at h
    cases hm : stripLit term [] with
    | none => simp [hm] at h
    | some r =>
      rw [hm] at h
      simp only [Option.some.injEq, Prod.mk.injEq] at h
      obtain ⟨ha, hb⟩ := h
      subst ha; subst hb
      simpa using stripLit_eq_append hm
  | cons c cs ih =>
    simp only [splitAtFirst] at h
    cases hm : stripLit term (c :: cs) with
    | some rest =>
      rw [hm] at h
      simp only [Option.some.injEq, Prod.mk.injEq] at h
      obtain ⟨ha, hb⟩ := h
      subst ha; subst hb
      simpa using stripLit_eq_append hm
    | none =>
      rw [hm] at h
      cases hr : splitAtFirst term cs with
      | none => rw [hr] at h; exact absurd h (by simp)
      | some p =>
        obtain ⟨a', b'⟩ := p
        rw [hr] at h
        simp only [Option.some.injEq, Prod.mk.injEq] at h
        obtain ⟨ha, hb⟩ := h
        subst hb
        rw [← ha]
        simpa using ih hr

theorem splitAtFirst_cons_none {term : List Char} {c : Char} {cs : List Char}
    (h : splitAtFirst term (c :: cs) = none) :
    stripLit term (c :: cs) = none ∧ splitAtFirst term cs = none := by
  simp only [splitAtFirst] at h
  cases hm : stripLit term (c :: cs) with
  | some rest => rw [hm] at h; exact absurd h (by simp)
  | none =>
    rw [hm] at h
    cases hr : splitAtFirst term cs with
    | none => exact ⟨rfl, rfl⟩
    | some p => obtain ⟨a, b⟩ := p; rw [hr] at h; exact absurd h (by simp)

theorem splitAtFirst_exact {t : Char} {ts a : List Char}
    (h : ∀ c ∈ a, c ≠ t) : splitAtFirst (t :: ts) (a ++ t :: ts) = some (a, []) := by
  induction a with
  | nil =>
    have hsl : stripLit (t :: ts) (t :: ts) = some [] := by
      simpa using stripLit_append (t :: ts) []
    simp only [List.nil_append, splitAtFirst, hsl]
  | cons c a' ih =>
    have hc : c ≠ t := h c (by simp)
    have hrec := ih fun d hd => h d (by simp [hd])
    simp only [List.cons_append, splitAtFirst, stripLit_head_ne hc]
    rw [show a'.append (t :: ts) = a' ++ t :: ts from rfl, hrec]

theorem takeWhile_append_stop {p : Char → Bool} {a : List Char} {b : Char}
    {bs : List Char} (ha : ∀ c ∈ a, p c = true) (hb : p b = false) :
    (a ++ b :: bs).takeWhile p = a ∧ (a ++ b :: bs).dropWhile p = b :: bs := by
  induction a with
  | nil => simp [List.takeWhile, List.dropWhile, hb]
  | cons c a' ih =>
    have hc : p c = true := ha c (by simp)
    have := ih fun d hd => ha d (by simp [hd])
    simp [List.takeWhile, List.dropWhile, hc, this]

/-- The fixed opening literal of the code-block pattern. -/
def litOpen : List Char := "<pre><code class=\"language-".data

/-- The fixed closing literal of the code-block pattern. -/
def litClose : List Char := "</code></pre>".data

/-- Try to match the code-block regex at the start of the input.  On success
return the language word, the (lazy) code body, and the remaining input after
the closing literal. -/
def tryMatchCode (s : List Char) : Option (List Char × List Char × List Char) :=
  match stripLit litOpen s with
  | none => none
  | some r1 =>
    if r1.takeWhile isWordChar = [] then none
    else
      match stripLit ('"' :: '>' :: []) (r1.dropWhile isWordChar) with
      | none => none
      | some r3 =>
        match splitAtFirst litClose r3 with
        | none => none
        | some (code, rest) => some (r1.takeWhile isWordChar, code, rest)

theorem tryMatchCode_rest_lt {s w code rest : List Char}
    (h : tryMatchCode s = some (w, code, rest)) : rest.length < s.length := by
  unfold tryMatchCode at h
  cases h1 : stripLit litOpen s with
  | none => rw [h1] at h; exact absurd h (by simp)
  | some r1 =>
    rw [h1] at h
    dsimp only at h
    by_cases hw : r1.takeWhile isWordChar = []
    · rw [if_pos hw] at h; exact absurd h (by simp)
    · rw [if_neg hw] at h
      cases h2 : stripLit ('"' :: '>' :: []) (r1.dropWhile isWordChar) with
      | none => rw [h2] at h; exact absurd h (by simp)
      | some r3 =>
        rw [h2] at h
        dsimp only at h
        cases h3 : splitAtFirst litClose r3 with
        | none => rw [h3] at h; exact absurd h (by simp)
        | some p =>
          obtain ⟨code', rest'⟩ := p
          rw [h3] at h
          simp only [Option.some.injEq, Prod.mk.injEq] at h
          obtain ⟨-, -, hr⟩ := h
          have e1 : s = litOpen ++ r1 := stripLit_eq_append h1
          have e2 := List.takeWhile_append_dropWhile isWordChar r1
          have e3 : r1.dropWhile isWordChar = '"' :: '>' :: r3 :=
            stripLit_eq_append h2
          have e4 : r3 = code' ++ litClose ++ rest' := splitAtFirst_eq_append h3
          rw [← hr]
          have hlen : s.length = litOpen.length + r1.length := by
            rw [e1]; simp
          have hlen2 : r1.length =
              (r1.takeWhile isWordChar).length + (2 + r3.length) := by
            conv_lhs => rw [← e2]
            rw [e3]; simp; omega
          have hlen3 : r3.length =
              code'.length + litClose.length + rest'.length := by
            rw [e4]; simp; omega
          have hopen : 0 < litOpen.length := by decide
          omega

theorem tryMatchCode_ne_nil {s w code rest : List Char}
    (h : tryMatchCode s = some (w, code, rest)) : s ≠ [] := by
  intro hs
  subst hs
  simp [tryMatchCode, litOpen, stripLit] at h

/-- Embedding of `re.sub(pattern, f, html, flags=re.DOTALL)` for the
code-block pattern: scan left to right, replace each leftmost non-overlapping
match by `f language code`, and continue after the match. -/
def pySubCode (f : List Char → List Char → List Char) : List Char → List Char
  | [] => []
  | c :: cs =>
    match h : tryMatchCode (c :: cs) with
    | some (w, code, rest) => f w code ++ pySubCode f rest
    | none => c :: pySubCode f cs
termination_by l => l.length
decreasing_by
  · exact tryMatchCode_rest_lt h
  · simp

theorem pySubCode_nil (f : List Char → List Char → List Char) :
    pySubCode f [] = [] := by
  simp [pySubCode]

theorem pySubCode_match {s w code rest : List Char}
    (f : List Char → List Char → List Char)
    (h : tryMatchCode s = some (w, code, rest)) :
    pySubCode f s = f w code ++ pySubCode f rest := by
  cases s with
  | nil => exact absurd rfl (tryMatchCode_ne_nil h)
  | cons c cs =>
    rw [pySubCode]
    split
    · rename_i w' code' rest' h'
      rw [h'] at h
      simp only [Option.some.injEq, Prod.mk.injEq] at h
      obtain ⟨hw, hc, hr⟩ := h
      rw [hw, hc, hr]
    · rename_i h'
      rw [h'] at h
      exact absurd h (by simp)

theorem pySubCode_nomatch {c : Char} {cs : List Char}
    (f : List Char → List Char → List Char)
    (h : tryMatchCode (c :: cs) = none) :
    pySubCode f (c :: cs) = c :: pySubCode f cs := by
  rw [pySubCode]
  split
  · rename_i w' code' rest' h'
    rw [h'] at h
    exact absurd h (by simp)
  · rfl

/-- Input without the opening literal is passed through unchanged. -/
theorem pySubCode_id (f : List Char → List Char → List Char) (s : List Char)
    (h : splitAtFirst litOpen s = none) : pySubCode f s = s := by
  induction s with
  | nil => exact pySubCode_nil f
  | cons c cs ih =>
    obtain ⟨h1, h2⟩ := splitAtFirst_cons_none h
    have hm : tryMatchCode (c :: cs) = none := by
      unfold tryMatchCode
      rw [h1]
    rw [pySubCode_nomatch f hm, ih h2]
example : normalize_candidates "263a" = ["263a", "263a-fe0f"] := by decide
example : normalize_candidates "fe0f" = ["fe0f"] := by decide
example : normalize_candidates "31-20e3" =
    ["31-20e3", "31-20e3-fe0f", "31-fe0f-20e3"] := by decide
example : normalize_candidates "263a-fe0e" =
    ["263a-fe0e", "263a", "263a-fe0f", "263a-fe0e-fe0f", "263a-fe0f-fe0e"] := by
  decide

/-- A pygments lexer as the code sees it: either one resolved by name or the
plain-text fallback `TextLexer`. -/
inductive PyLexer where
  | byName (languageName : String)
  | text
deriving DecidableEq

/-- Embedding of the inner `re.search(r"<pre>(.*?)</pre>", ..., re.DOTALL)`
step of `replace_code_block`: extract the first `<pre>...</pre>` body of the
highlighter output, or keep the whole output when there is no match. -/
def extractPreInner (h : List Char) : List Char :=
  match splitAtFirst "<pre>".data h with
  | some (_, afterOpen) =>
    match splitAtFirst "</pre>".data afterOpen with
    | some (inner, _) => inner
    | none => h
  | none => h

/-- Embedding of the `replace_code_block` inner function: resolve a lexer by
language name (`get_lexer_by_name`), falling back to `TextLexer` when the
name raises; run the highlighter (`hi`, abstracting
`pygments.highlight(code, lexer, HtmlFormatter(style="default"))`); extract
the inner `<pre>` content; and re-wrap it in the fixed container class. -/
def replace_code_block (resolveLexer : String → Option PyLexer)
    (hi : String → PyLexer → String) (lang code : List Char) : List Char :=
  let lexer := (resolveLexer lang.asString).getD PyLexer.text
  let inner := extractPreInner (hi code.asString lexer).data
  "<div class=\"codehilite\"><pre>".data ++ inner ++ "</pre></div>".data

/-- Embedding of `_highlight_code_blocks`: `re.sub` of the code-block pattern
with `replace_code_block` over the HTML. -/
def highlight_code_blocks (resolveLexer : String → Option PyLexer)
    (hi : String → PyLexer → String) (html : String) : String :=
  (pySubCode (replace_code_block resolveLexer hi) html.data).asString

theorem data_ne_nil (s : String) (hs : s ≠ "") : s.data ≠ [] := by
  intro h
  exact hs (String.ext h)

/-- Claim C7: a code block tagged with a language class whose name does not
resolve to a lexer is highlighted with the plain-text fallback lexer and
re-wrapped (non-empty) in the fixed `codehilite` container, and input in
which the code-block opening literal does not occur (in particular code
blocks carrying no language class) is left untouched.  Totality of
`highlight_code_blocks` is the embedding of "does not raise". -/
theorem highlight_unknown_language_fallback
    (resolveLexer : String → Option PyLexer) (hi : String → PyLexer → String)
    (lang code : String) (h1 : lang ≠ "")
    (h2 : ∀ c ∈ lang.data, isWordChar c = true)
    (h3 : ∀ c ∈ code.data, c ≠ '<') (h4 : resolveLexer lang = none) :
    (highlight_code_blocks resolveLexer hi
        ("<pre><code class=\"language-" ++ lang ++ "\">" ++ code ++ "</code></pre>") =
      "<div class=\"codehilite\"><pre>" ++
        (extractPreInner (hi code PyLexer.text).data).asString ++ "</pre></div>") ∧
    (highlight_code_blocks resolveLexer hi
        ("<pre><code class=\"language-" ++ lang ++ "\">" ++ code ++ "</code></pre>") ≠ "") ∧
    (∀ s : String, splitAtFirst litOpen s.data = none →
      highlight_code_blocks resolveLexer hi s = s) := by
  have hdata : ("<pre><code class=\"language-" ++ lang ++ "\">" ++ code ++
      "</code></pre>").data =
      litOpen ++ (lang.data ++ '"' :: '>' :: (code.data ++ litClose)) := by
    simp only [String.data_append, litOpen, litClose]
    simp [List.append_assoc]
  have hmatch : tryMatchCode
      (litOpen ++ (lang.data ++ '"' :: '>' :: (code.data ++ litClose))) =
      some (lang.data, code.data, []) := by
    unfold tryMatchCode
    rw [stripLit_append]
    dsimp only
    have hsplit := @takeWhile_append_stop isWordChar lang.data '"'
      ('>' :: (code.data ++ litClose)) h2 (by decide)
    rw [hsplit.1, hsplit.2, if_neg (data_ne_nil lang h1)]
    have hq : stripLit ['"', '>'] ('"' :: '>' :: (code.data ++ litClose)) =
        some (code.data ++ litClose) := by
      simp [stripLit]
    rw [hq]
    dsimp only
    have hlitC : litClose = '<' :: "/code></pre>".data := rfl
    have hexact := @splitAtFirst_exact '<' "/code></pre>".data code.data h3
    rw [hlitC, hexact]
  refine ⟨?_, ?_, ?_⟩
  · unfold highlight_code_blocks
    rw [hdata, pySubCode_match _ hmatch, pySubCode_nil, List.append_nil]
    unfold replace_code_block
    rw [asString_data lang, h4]
    simp only [Option.getD]
    rw [asString_data code]
    apply String.ext
    simp [String.data_append, data_asString]
  · unfold highlight_code_blocks
    rw [hdata, pySubCode_match _ hmatch, pySubCode_nil, List.append_nil]
    intro hcontra
    have := congrArg String.data hcontra
    simp only [data_asString] at this
    have h0 := congrArg List.length this
    simp [replace_code_block] at h0
  · intro s hno
    unfold highlight_code_blocks
    rw [pySubCode_id _ _ hno, asString_data]

/-- Witness for C7: the unrecognized language `madeuplang` with a concrete
highlighter does not disturb totality and yields the wrapped fallback block. -/
theorem highlight_unknown_language_fallback_witness :
    ("madeuplang" : String) ≠ "" ∧
    (∀ c ∈ ("madeuplang" : String).data, isWordChar c = true) ∧
    (∀ c ∈ ("x = 1" : String).data, c ≠ '<') ∧
    highlight_code_blocks (fun _ => none) (fun c _ => "<pre>" ++ c ++ "</pre>")
        ("<pre><code class=\"language-" ++ "madeuplang" ++ "\">" ++ "x = 1" ++
          "</code></pre>") =
      "<div class=\"codehilite\"><pre>" ++
        (extractPreInner (("<pre>" ++ "x = 1" ++ "</pre>") : String).data).asString ++
        "</pre></div>" := by
  refine ⟨by decide, by decide, by decide, ?_⟩
  exact (highlight_unknown_language_fallback (fun _ => none)
    (fun c _ => "<pre>" ++ c ++ "</pre>") "madeuplang" "x = 1"
    (by decide) (by decide) (by decide) rfl).1

/-! ## Style and theme registry
(`src/md2pdf/core/utils/style_loader.py`)

The filesystem is modelled as association lists from filename stem (the
style/theme key) to CSS file content.  Metadata extraction embeds the regex
`/\*\s*([^*]+?)\s*\*/` used by both `_extract_style_info` and
`_extract_theme_info`: at the leftmost position where the comment opener
occurs, the body runs to the first `*`; the match succeeds when that body is
non-empty and the first `*` is immediately followed by `/`; the captured
group, after Python's `.strip()`, is the whitespace-trimmed body.  The
font/color variable maps are not modelled (no claim mentions them). -/

/-- Python `str.strip()` on a character list. -/
def pyStrip (l : List Char) : List Char :=
  ((l.dropWhile isPySpace).reverse.dropWhile isPySpace).reverse

/-- Python `str.title()` (ASCII letters): uppercase a letter that does not
follow a letter, lowercase the rest. -/
def pyTitleAux : Bool → List Char → List Char
  | _, [] => []
  | prevAlpha, c :: cs =>
    (if c.isAlpha then (if prevAlpha then c.toLower else c.toUpper) else c) ::
      pyTitleAux c.isAlpha cs

/-- Python `str.title()` at the `String` level. -/
def pyTitle (s : String) : String :=
  (pyTitleAux false s.data).asString

/-- Attempt to match the metadata comment pattern at the start of the input;
on success return the stripped captured group. -/
def tryCommentAt : List Char → Option (List Char)
  | '/' :: '*' :: rest =>
    match splitAtFirst ['*'] rest with
    | some (seg, afterStar) =>
      if seg ≠ [] ∧ afterStar.head? = some '/' then some (pyStrip seg) else none
    | none => none
  | _ => none

/-- Leftmost match of the metadata comment pattern
(`re.search(r"/\*\s*([^*]+?)\s*\*/", content)` followed by `.strip()`). -/
def findComment : List Char → Option (List Char)
  | [] => none
  | c :: cs =>
    match tryCommentAt (c :: cs) with
    | some v => some v
    | none => findComment cs

/-- Presence of a block comment in the raw sense: a `/*` opener followed
somewhere later by a `*/` closer. -/
def hasBlockComment (l : List Char) : Bool :=
  match splitAtFirst "/*".data l with
  | some (_, rest) =>
    match splitAtFirst "*/".data rest with
    | some _ => true
    | none => false
  | none => false

/-- Display name of a style descriptor (`info.get("name", stem.title())`). -/
def styleDisplayName (key content : String) : String :=
  match findComment content.data with
  | some v => v.asString
  | none => pyTitle key

/-- Description of a style descriptor
(`info.get("description", f"{stem.title()} style")`); the source extracts it
with the same regex as the display name. -/
def styleDescription (key content : String) : String :=
  match findComment content.data with
  | some v => v.asString
  | none => pyTitle key ++ " style"

/-- Display name of a theme descriptor (`_extract_theme_info` uses the same
pattern as `_extract_style_info`). -/
def themeDisplayName (key content : String) : String :=
  match findComment content.data with
  | some v => v.asString
  | none => pyTitle key

/-- Description of a theme descriptor. -/
def themeDescription (key content : String) : String :=
  match findComment content.data with
  | some v => v.asString
  | none => pyTitle key ++ " theme"

/-- A discovered style or theme descriptor (name, description, and the CSS
content standing for the file behind the recorded path). -/
structure Descriptor where
  displayName : String
  description : String
  css : String
deriving DecidableEq

/-- Embedding of `discover_styles` (cacheless core): one descriptor per CSS
file, keyed by filename stem. -/
def discover_styles (styleFiles : List (String × String)) :
    List (String × Descriptor) :=
  styleFiles.map fun kv =>
    (kv.1, ⟨styleDisplayName kv.1 kv.2, styleDescription kv.1 kv.2, kv.2⟩)

/-- Embedding of `discover_themes` (cacheless core). -/
def discover_themes (themeFiles : List (String × String)) :
    List (String × Descriptor) :=
  themeFiles.map fun kv =>
    (kv.1, ⟨themeDisplayName kv.1 kv.2, themeDescription kv.1 kv.2, kv.2⟩)

/-- Python dict lookup for the discovered mappings (stems are unique within
a directory, so first-match association lookup coincides with dict lookup). -/
def lookupAssoc {α : Type} (k : String) : List (String × α) → Option α
  | [] => none
  | (k', v) :: rest => if k = k' then some v else lookupAssoc k rest

/-- Python `repr` of a list of strings (`list(styles.keys())` interpolated
into the error message). -/
def pyListRepr (keys : List String) : String :=
  "[" ++ pyListReprBody keys ++ "]"
where
  pyListReprBody : List String → String
    | [] => ""
    | [k] => "\x27" ++ k ++ "\x27"
    | k :: k' :: rest => "\x27" ++ k ++ "\x27, " ++ pyListReprBody (k' :: rest)

/-- The `ValueError` message of `get_style_css` for an unknown style key. -/
def styleNotFoundMsg (key : String) (keys : List String) : String :=
  "Style \x27" ++ key ++ "\x27 not found. Available: " ++ pyListRepr keys

/-- The `ValueError` message of `get_theme_css` for an unknown theme key. -/
def themeNotFoundMsg (key : String) (keys : List String) : String :=
  "Theme \x27" ++ key ++ "\x27 not found. Available: " ++ pyListRepr keys

/-- Embedding of `get_style_css`: discover, then fail with the not-found
message or read the style file's CSS. -/
def get_style_css (styleFiles : List (String × String)) (name : String) :
    Except String String :=
  match lookupAssoc name (discover_styles styleFiles) with
  | none =>
    .error (styleNotFoundMsg name ((discover_styles styleFiles).map Prod.fst))
  | some d => .ok d.css

/-- Embedding of `get_theme_css`. -/
def get_theme_css (themeFiles : List (String × String)) (name : String) :
    Except String String :=
  match lookupAssoc name (discover_themes themeFiles) with
  | none =>
    .error (themeNotFoundMsg name ((discover_themes themeFiles).map Prod.fst))
  | some d => .ok d.css

/-- One string occurs inside another. -/
def isSubstringOf (a b : String) : Prop := ∃ p s, b = p ++ a ++ s

theorem lookupAssoc_none_iff {α : Type} (k : String) (l : List (String × α)) :
    lookupAssoc k l = none ↔ k ∉ l.map Prod.fst := by
  induction l with
  | nil => simp [lookupAssoc]
  | cons kv rest ih =>
    obtain ⟨k', v⟩ := kv
    by_cases hk : k = k'
    · subst hk
      simp [lookupAssoc]
    · simp [lookupAssoc, hk, ih]

theorem lookupAssoc_isSome_of_mem {α : Type} (k : String) (l : List (String × α))
    (h : k ∈ l.map Prod.fst) : ∃ v, lookupAssoc k l = some v := by
  cases hl : lookupAssoc k l with
  | none => exact absurd h ((lookupAssoc_none_iff k l).mp hl)
  | some v => exact ⟨v, rfl⟩

theorem mem_of_nodup_key {α : Type} (k : String) (a b : α)
    (l : List (String × α)) (hnd : (l.map Prod.fst).Nodup)
    (ha : (k, a) ∈ l) (hb : (k, b) ∈ l) : a = b := by
  induction l with
  | nil => simp at ha
  | cons kv rest ih =>
    obtain ⟨k', v⟩ := kv
    simp only [List.map_cons, List.nodup_cons] at hnd
    rcases List.mem_cons.mp ha with ha1 | ha2 <;>
      rcases List.mem_cons.mp hb with hb1 | hb2
    · rw [Prod.mk.injEq] at ha1 hb1
      rw [ha1.2, hb1.2]
    · rw [Prod.mk.injEq] at ha1
      have hmem : k ∈ List.map Prod.fst rest :=
        List.mem_map.mpr ⟨(k, b), hb2, rfl⟩
      rw [ha1.1] at hmem
      exact absurd hmem hnd.1
    · rw [Prod.mk.injEq] at hb1
      have hmem : k ∈ List.map Prod.fst rest :=
        List.mem_map.mpr ⟨(k, a), ha2, rfl⟩
      rw [hb1.1] at hmem
      exact absurd hmem hnd.1
    · exact ih hnd.2 ha2 hb2

theorem string_append_empty (s : String) : s ++ "" = s := by
  apply String.ext
  simp [String.data_append]

theorem discover_styles_keys (styleFiles : List (String × String)) :
    (discover_styles styleFiles).map Prod.fst = styleFiles.map Prod.fst := by
  simp [discover_styles, List.map_map]

theorem discover_themes_keys (themeFiles : List (String × String)) :
    (discover_themes themeFiles).map Prod.fst = themeFiles.map Prod.fst := by
  simp [discover_themes, List.map_map]

/-- Claim C5: an absent style or theme key makes the lookup fail with a
not-found error whose message contains the requested key and the rendered
list of available keys; a present key resolves (to exactly one descriptor
when the directory's stems are distinct) and yields the CSS without error. -/
theorem style_theme_key_resolution (styleFiles themeFiles : List (String × String))
    (key : String) :
    (key ∉ (discover_styles styleFiles).map Prod.fst →
      get_style_css styleFiles key =
        .error (styleNotFoundMsg key ((discover_styles styleFiles).map Prod.fst)) ∧
      isSubstringOf key
        (styleNotFoundMsg key ((discover_styles styleFiles).map Prod.fst)) ∧
      isSubstringOf (pyListRepr ((discover_styles styleFiles).map Prod.fst))
        (styleNotFoundMsg key ((discover_styles styleFiles).map Prod.fst))) ∧
    (key ∈ (discover_styles styleFiles).map Prod.fst →
      (∃ css, get_style_css styleFiles key = .ok css) ∧
      ((styleFiles.map Prod.fst).Nodup →
        ∃! d, (key, d) ∈ discover_styles styleFiles)) ∧
    (key ∉ (discover_themes themeFiles).map Prod.fst →
      get_theme_css themeFiles key =
        .error (themeNotFoundMsg key ((discover_themes themeFiles).map Prod.fst)) ∧
      isSubstringOf key
        (themeNotFoundMsg key ((discover_themes themeFiles).map Prod.fst)) ∧
      isSubstringOf (pyListRepr ((discover_themes themeFiles).map Prod.fst))
        (themeNotFoundMsg key ((discover_themes themeFiles).map Prod.fst))) ∧
    (key ∈ (discover_themes themeFiles).map Prod.fst →
      (∃ css, get_theme_css themeFiles key = .ok css) ∧
      ((themeFiles.map Prod.fst).Nodup →
        ∃! d, (key, d) ∈ discover_themes themeFiles)) := by
  refine ⟨fun h => ?_, fun h => ?_, fun h => ?_, fun h => ?_⟩
  · have hl := (lookupAssoc_none_iff key (discover_styles styleFiles)).mpr h
    unfold get_style_css
    rw [hl]
    refine ⟨rfl, ⟨"Style \x27", "\x27 not found. Available: " ++
      pyListRepr ((discover_styles styleFiles).map Prod.fst), ?_⟩,
      ⟨"Style \x27" ++ key ++ "\x27 not found. Available: ", "", ?_⟩⟩
    · unfold styleNotFoundMsg
      simp [String.append_assoc]
    · unfold styleNotFoundMsg
      rw [string_append_empty]
  · obtain ⟨d, hd⟩ := lookupAssoc_isSome_of_mem key _ h
    constructor
    · refine ⟨d.css, ?_⟩
      unfold get_style_css
      rw [hd]
    · intro hnd
      obtain ⟨p, hp, hfst⟩ := List.mem_map.mp h
      obtain ⟨k', d'⟩ := p
      refine ⟨d', by rwa [show k' = key from hfst] at hp, fun e he => ?_⟩
      refine mem_of_nodup_key key e d' (discover_styles styleFiles) ?_ he
        (by rwa [show k' = key from hfst] at hp)
      rw [discover_styles_keys]
      exact hnd
  · have hl := (lookupAssoc_none_iff key (discover_themes themeFiles)).mpr h
    unfold get_theme_css
    rw [hl]
    refine ⟨rfl, ⟨"Theme \x27", "\x27 not found. Available: " ++
      pyListRepr ((discover_themes themeFiles).map Prod.fst), ?_⟩,
      ⟨"Theme \x27" ++ key ++ "\x27 not found. Available: ", "", ?_⟩⟩
    · unfold themeNotFoundMsg
      simp [String.append_assoc]
    · unfold themeNotFoundMsg
      rw [string_append_empty]
  · obtain ⟨d, hd⟩ := lookupAssoc_isSome_of_mem key _ h
    constructor
    · refine ⟨d.css, ?_⟩
      unfold get_theme_css
      rw [hd]
    · intro hnd
      obtain ⟨p, hp, hfst⟩ := List.mem_map.mp h
      obtain ⟨k', d'⟩ := p
      refine ⟨d', by rwa [show k' = key from hfst] at hp, fun e he => ?_⟩
      refine mem_of_nodup_key key e d' (discover_themes themeFiles) ?_ he
        (by rwa [show k' = key from hfst] at hp)
      rw [discover_themes_keys]
      exact hnd

/-- Witness for C5: with one discovered style `technical` and one theme
`default`, an unknown key errors with the listing message and the present
keys resolve without error. -/
theorem style_theme_key_resolution_witness :
    get_style_css [("technical", "T")] "missing" =
      .error (styleNotFoundMsg "missing"
        ((discover_styles [("technical", "T")]).map Prod.fst)) ∧
    (∃ css, get_style_css [("technical", "T")] "technical" = .ok css) ∧
    (∃ css, get_theme_css [("default", "D")] "default" = .ok css) :=
  ⟨((style_theme_key_resolution [("technical", "T")] [("default", "D")]
      "missing").1 (by decide)).1,
   (((style_theme_key_resolution [("technical", "T")] [("default", "D")]
      "technical").2.1 (by decide)).1),
   (((style_theme_key_resolution [("technical", "T")] [("default", "D")]
      "default").2.2.2 (by decide)).1)⟩

/-- Counterexample to C10 as stated: the CSS content `/* a*b */` contains a
block comment, but the metadata pattern cannot match a comment whose body
contains an asterisk, so the extraction fails and the differing fallbacks
apply: the display name is the title-cased key while the description carries
the generic `<Key> style` text. -/
theorem style_metadata_counterexample :
    hasBlockComment "/* a*b */".data = true ∧
    findComment "/* a*b */".data = none ∧
    styleDisplayName "fancy" "/* a*b */" = "Fancy" ∧
    styleDescription "fancy" "/* a*b */" = "Fancy style" ∧
    styleDisplayName "fancy" "/* a*b */" ≠ styleDescription "fancy" "/* a*b */" := by
  refine ⟨by decide, by decide, by decide, by decide, by decide⟩

/-- Claim C10 (amended): the display name and the description are extracted
by the same pattern from the same content, so whenever the pattern matches
(the first block comment whose body is non-empty and asterisk-free) the two
fields are the identical captured string; they differ exactly when the
pattern finds no match — which can happen even for content that does contain
a block comment — in which case the fallbacks (title-cased key, and the
generic `<Key> style` / `<Key> theme` text) apply.  This holds for styles and
themes alike. -/
theorem style_metadata_amended (key content : String) :
    (∀ v, findComment content.data = some v →
      styleDisplayName key content = v.asString ∧
      styleDescription key content = v.asString ∧
      themeDisplayName key content = v.asString ∧
      themeDescription key content = v.asString) ∧
    (findComment content.data = none →
      styleDisplayName key content = pyTitle key ∧
      styleDescription key content = pyTitle key ++ " style" ∧
      themeDescription key content = pyTitle key ++ " theme" ∧
      styleDisplayName key content ≠ styleDescription key content ∧
      themeDisplayName key content ≠ themeDescription key content) := by
  constructor
  · intro v hv
    unfold styleDisplayName styleDescription themeDisplayName themeDescription
    rw [hv]
    exact ⟨rfl, rfl, rfl, rfl⟩
  · intro hn
    unfold styleDisplayName styleDescription themeDisplayName themeDescription
    rw [hn]
    have hstyle : pyTitle key ≠ pyTitle key ++ " style" := by
      intro h
      have hl := congrArg String.length h
      rw [String.length_append] at hl
      have : (" style" : String).length = 6 := rfl
      omega
    have htheme : pyTitle key ≠ pyTitle key ++ " theme" := by
      intro h
      have hl := congrArg String.length h
      rw [String.length_append] at hl
      have : (" theme" : String).length = 6 := rfl
      omega
    exact ⟨rfl, rfl, rfl, hstyle, htheme⟩

/-- Witness for the amended C10: a matched comment makes name and description
coincide; a contentless file makes them differ through the fallbacks. -/
theorem style_metadata_amended_witness :
    (styleDisplayName "technical" "/* Tech */" = "Tech" ∧
      styleDescription "technical" "/* Tech */" = "Tech") ∧
    styleDisplayName "technical" "body" ≠ styleDescription "technical" "body" :=
  ⟨⟨((style_metadata_amended "technical" "/* Tech */").1 "Tech".data
      (by decide)).1,
    ((style_metadata_amended "technical" "/* Tech */").1 "Tech".data
      (by decide)).2.1⟩,
   ((style_metadata_amended "technical" "body").2 (by decide)).2.2.2.1⟩

/-! ## Loader caching behaviour (`StyleLoader` state)

`StyleLoader` caches only the two discovery dictionaries
(`_styles_cache` / `_themes_cache`).  The instrumented operations below
thread that state explicitly and count every CSS-file content read performed
(`open(...)` in `_extract_style_info` / `_extract_theme_info` during
discovery, and in `get_style_css` / `get_theme_css` when returning CSS). -/

/-- The mutable state of a `StyleLoader` instance. -/
structure LoaderState where
  stylesCache : Option (List (String × Descriptor))
  themesCache : Option (List (String × Descriptor))
deriving DecidableEq

/-- The two template directories seen by a loader. -/
structure LoaderFS where
  styleFiles : List (String × String)
  themeFiles : List (String × String)

/-- Result of an instrumented loader operation: value, post-state, and the
number of CSS file content reads the operation performed. -/
structure OpResult (α : Type) where
  val : α
  state : LoaderState
  reads : Nat
deriving DecidableEq

/-- Embedding of `discover_styles` with its cache: a hit reads nothing; a
miss reads every style file once (metadata extraction) and populates the
cache. -/
def discover_styles_op (fs : LoaderFS) (st : LoaderState) :
    OpResult (List (String × Descriptor)) :=
  match st.stylesCache with
  | some d => ⟨d, st, 0⟩
  | none =>
    ⟨discover_styles fs.styleFiles,
     { st with stylesCache := some (discover_styles fs.styleFiles) },
     fs.styleFiles.length⟩

/-- Embedding of `discover_themes` with its cache. -/
def discover_themes_op (fs : LoaderFS) (st : LoaderState) :
    OpResult (List (String × Descriptor)) :=
  match st.themesCache with
  | some d => ⟨d, st, 0⟩
  | none =>
    ⟨discover_themes fs.themeFiles,
     { st with themesCache := some (discover_themes fs.themeFiles) },
     fs.themeFiles.length⟩

/-- Embedding of `get_style_css`: discover (cached), then re-open and read
the style file on every successful call. -/
def get_style_css_op (fs : LoaderFS) (st : LoaderState) (name : String) :
    OpResult (Except String String) :=
  match lookupAssoc name (discover_styles_op fs st).val with
  | none =>
    ⟨.error (styleNotFoundMsg name
        ((discover_styles_op fs st).val.map Prod.fst)),
     (discover_styles_op fs st).state, (discover_styles_op fs st).reads⟩
  | some d =>
    ⟨.ok d.css, (discover_styles_op fs st).state,
     (discover_styles_op fs st).reads + 1⟩

/-- Embedding of `get_theme_css`. -/
def get_theme_css_op (fs : LoaderFS) (st : LoaderState) (name : String) :
    OpResult (Except String String) :=
  match lookupAssoc name (discover_themes_op fs st).val with
  | none =>
    ⟨.error (themeNotFoundMsg name
        ((discover_themes_op fs st).val.map Prod.fst)),
     (discover_themes_op fs st).state, (discover_themes_op fs st).reads⟩
  | some d =>
    ⟨.ok d.css, (discover_themes_op fs st).state,
     (discover_themes_op fs st).reads + 1⟩

/-- Embedding of `combine_style_and_theme`: read the style CSS, then the
theme CSS (a `ValueError` propagates immediately), and concatenate theme
first so style rules win the cascade.  There is no memoisation of the
combined result in the source. -/
def combine_style_and_theme_op (fs : LoaderFS) (st : LoaderState)
    (styleName themeName : String) : OpResult (Except String String) :=
  match get_style_css_op fs st styleName with
  | ⟨.error e, st1, r1⟩ => ⟨.error e, st1, r1⟩
  | ⟨.ok style_css, st1, r1⟩ =>
    match get_theme_css_op fs st1 themeName with
    | ⟨.error e, st2, r2⟩ => ⟨.error e, st2, r1 + r2⟩
    | ⟨.ok theme_css, st2, r2⟩ =>
      ⟨.ok (theme_css ++ "\n\n" ++ style_css), st2, r1 + r2⟩

theorem get_style_css_op_ok (fs : LoaderFS) (st : LoaderState) (name : String)
    (d : Descriptor)
    (h : lookupAssoc name (discover_styles_op fs st).val = some d) :
    get_style_css_op fs st name =
      ⟨.ok d.css, (discover_styles_op fs st).state,
        (discover_styles_op fs st).reads + 1⟩ := by
  unfold get_style_css_op
  rw [h]

theorem get_theme_css_op_ok (fs : LoaderFS) (st : LoaderState) (name : String)
    (d : Descriptor)
    (h : lookupAssoc name (discover_themes_op fs st).val = some d) :
    get_theme_css_op fs st name =
      ⟨.ok d.css, (discover_themes_op fs st).state,
        (discover_themes_op fs st).reads + 1⟩ := by
  unfold get_theme_css_op
  rw [h]

theorem combine_op_ok (fs : LoaderFS) (st : LoaderState) (s t : String)
    (cs ct : String) (st1 st2 : LoaderState) (r1 r2 : Nat)
    (h1 : get_style_css_op fs st s = ⟨.ok cs, st1, r1⟩)
    (h2 : get_theme_css_op fs st1 t = ⟨.ok ct, st2, r2⟩) :
    combine_style_and_theme_op fs st s t =
      ⟨.ok (ct ++ "\n\n" ++ cs), st2, r1 + r2⟩ := by
  unfold combine_style_and_theme_op
  rw [h1]
  dsimp only
  rw [h2]

/-- Counterexample to C3: with one style file and one theme file and a fresh
loader, the second `combine_style_and_theme` call for the same
(style, theme) pair performs two CSS file reads — it re-opens both files —
rather than returning a stored result with no reads; there is no per-pair
compose cache in the source, only the discovery caches. -/
theorem compose_cache_counterexample :
    (combine_style_and_theme_op
        ⟨[("technical", "/* Technical Style */ body \x7b color: black; \x7d")],
         [("default", "/* Default Theme */ :root \x7b --theme-main: white; \x7d")]⟩
        (combine_style_and_theme_op
          ⟨[("technical", "/* Technical Style */ body \x7b color: black; \x7d")],
           [("default", "/* Default Theme */ :root \x7b --theme-main: white; \x7d")]⟩
          ⟨none, none⟩ "technical" "default").state
        "technical" "default").reads = 2 ∧
    (2 : Nat) ≠ 0 := by
  refine ⟨by decide, by decide⟩

/-- Claim C3 (amended): only discovery is cached.  After a first
`combine_style_and_theme` call for a valid pair, a repeated call returns an
equal result (the filesystem is static) and leaves the caches unchanged, but
re-reads both CSS files (exactly two file reads), instead of returning a
stored composition without reads. -/
theorem compose_not_cached_amended (fs : LoaderFS) (s t : String)
    (hs : s ∈ (discover_styles fs.styleFiles).map Prod.fst)
    (ht : t ∈ (discover_themes fs.themeFiles).map Prod.fst) :
    (combine_style_and_theme_op fs
        (combine_style_and_theme_op fs ⟨none, none⟩ s t).state s t).val =
      (combine_style_and_theme_op fs ⟨none, none⟩ s t).val ∧
    (combine_style_and_theme_op fs
        (combine_style_and_theme_op fs ⟨none, none⟩ s t).state s t).reads = 2 ∧
    (combine_style_and_theme_op fs
        (combine_style_and_theme_op fs ⟨none, none⟩ s t).state s t).state =
      (combine_style_and_theme_op fs ⟨none, none⟩ s t).state := by
  obtain ⟨ds, hds⟩ := lookupAssoc_isSome_of_mem s _ hs
  obtain ⟨dt, hdt⟩ := lookupAssoc_isSome_of_mem t _ ht
  -- first call
  have e1 : get_style_css_op fs ⟨none, none⟩ s =
      ⟨.ok ds.css, ⟨some (discover_styles fs.styleFiles), none⟩,
        fs.styleFiles.length + 1⟩ :=
    get_style_css_op_ok fs ⟨none, none⟩ s ds hds
  have e2 : get_theme_css_op fs ⟨some (discover_styles fs.styleFiles), none⟩ t =
      ⟨.ok dt.css, ⟨some (discover_styles fs.styleFiles),
        some (discover_themes fs.themeFiles)⟩, fs.themeFiles.length + 1⟩ :=
    get_theme_css_op_ok fs _ t dt hdt
  have eFirst : combine_style_and_theme_op fs ⟨none, none⟩ s t =
      ⟨.ok (dt.css ++ "\n\n" ++ ds.css),
        ⟨some (discover_styles fs.styleFiles),
          some (discover_themes fs.themeFiles)⟩,
        (fs.styleFiles.length + 1) + (fs.themeFiles.length + 1)⟩ :=
    combine_op_ok fs ⟨none, none⟩ s t ds.css dt.css _ _ _ _ e1 e2
  -- second call, both caches populated
  have e3 : get_style_css_op fs
      ⟨some (discover_styles fs.styleFiles),
        some (discover_themes fs.themeFiles)⟩ s =
      ⟨.ok ds.css, ⟨some (discover_styles fs.styleFiles),
        some (discover_themes fs.themeFiles)⟩, 0 + 1⟩ :=
    get_style_css_op_ok fs _ s ds hds
  have e4 : get_theme_css_op fs
      ⟨some (discover_styles fs.styleFiles),
        some (discover_themes fs.themeFiles)⟩ t =
      ⟨.ok dt.css, ⟨some (discover_styles fs.styleFiles),
        some (discover_themes fs.themeFiles)⟩, 0 + 1⟩ :=
    get_theme_css_op_ok fs _ t dt hdt
  have eSecond : combine_style_and_theme_op fs
      ⟨some (discover_styles fs.styleFiles),
        some (discover_themes fs.themeFiles)⟩ s t =
      ⟨.ok (dt.css ++ "\n\n" ++ ds.css),
        ⟨some (discover_styles fs.styleFiles),
          some (discover_themes fs.themeFiles)⟩, (0 + 1) + (0 + 1)⟩ :=
    combine_op_ok fs _ s t ds.css dt.css _ _ _ _ e3 e4
  rw [eFirst]
  dsimp only
  rw [eSecond]
  exact ⟨rfl, rfl, rfl⟩

/-- Witness for the amended C3 at a concrete one-style, one-theme loader. -/
theorem compose_not_cached_amended_witness :
    (combine_style_and_theme_op ⟨[("technical", "S")], [("default", "T")]⟩
        (combine_style_and_theme_op ⟨[("technical", "S")], [("default", "T")]⟩
          ⟨none, none⟩ "technical" "default").state
        "technical" "default").reads = 2 :=
  (compose_not_cached_amended ⟨[("technical", "S")], [("default", "T")]⟩
    "technical" "default" (by decide) (by decide)).2.1

/-! ## Output-path extension normalization
(`src/md2pdf/core/converters/pdf_converter.py`, `_ensure_pdf_extension`;
`src/md2pdf/core/converters/word_converter.py`, `_ensure_docx_extension`)

`pathlib.PurePath.suffix` and `.with_suffix` act on the final path component,
modelled here by its name string: the suffix starts at the last dot provided
that dot is neither the first nor the last character of the name. -/

/-- Position of the last `.` in a name, if any. -/
def lastDotPos : List Char → Option Nat
  | [] => none
  | c :: cs =>
    match lastDotPos cs with
    | some i => some (i + 1)
    | none => if c = '.' then some 0 else none

/-- Index where the pathlib suffix starts, when the name has a suffix. -/
def pathSuffixIdx (l : List Char) : Option Nat :=
  match lastDotPos l with
  | some i => if 0 < i ∧ i + 1 < l.length then some i else none
  | none => none

/-- Embedding of `PurePath.suffix` on a file name. -/
def pathSuffix (name : String) : String :=
  match pathSuffixIdx name.data with
  | some i => (name.data.drop i).asString
  | none => ""

/-- Embedding of `PurePath.with_suffix` on a file name (defined for
non-empty names, as pathlib raises on an empty one). -/
def pathWithSuffix (name : String) (newSuffix : String) : String :=
  match pathSuffixIdx name.data with
  | some i => ((name.data.take i) ++ newSuffix.data).asString
  | none => name ++ newSuffix

/-- Python `str.lower()` restricted to the ASCII suffixes compared here. -/
def pyLower (s : String) : String :=
  (s.data.map Char.toLower).asString

/-- Embedding of `PDFConverter._ensure_pdf_extension`. -/
def ensure_pdf_extension (name : String) : String :=
  if pyLower (pathSuffix name) ≠ ".pdf" then pathWithSuffix name ".pdf" else name

/-- Embedding of `WordConverter._ensure_docx_extension`. -/
def ensure_docx_extension (name : String) : String :=
  if pyLower (pathSuffix name) ≠ ".docx" then pathWithSuffix name ".docx" else name

theorem lastDotPos_none_of_no_dot (l : List Char) (h : ∀ c ∈ l, c ≠ '.') :
    lastDotPos l = none := by
  induction l with
  | nil => rfl
  | cons c cs ih =>
    have hc : c ≠ '.' := h c (by simp)
    simp only [lastDotPos, ih fun d hd => h d (by simp [hd]), hc]
    simp [hc]

theorem lastDotPos_append_dot (a b : List Char) (hb : ∀ c ∈ b, c ≠ '.') :
    lastDotPos (a ++ '.' :: b) = some a.length := by
  induction a with
  | nil =>
    simp only [List.nil_append, lastDotPos, lastDotPos_none_of_no_dot b hb]
    simp
  | cons c a' ih =>
    simp only [List.cons_append, lastDotPos]
    rw [show a'.append ('.' :: b) = a' ++ '.' :: b from rfl, ih]
    simp

theorem pathSuffix_append_dot (stem : List Char) (ext : List Char)
    (hstem : stem ≠ []) (hext : ext ≠ []) (hnodot : ∀ c ∈ ext, c ≠ '.') :
    pathSuffix (stem ++ '.' :: ext).asString = ('.' :: ext).asString := by
  unfold pathSuffix pathSuffixIdx
  rw [data_asString, lastDotPos_append_dot stem ext hnodot]
  dsimp only
  have h0 : 0 < stem.length := List.length_pos.mpr hstem
  have h1 : stem.length + 1 < (stem ++ '.' :: ext).length := by
    simp only [List.length_append, List.length_cons]
    have := List.length_pos.mpr hext
    omega
  rw [if_pos ⟨h0, h1⟩]
  dsimp only
  congr 1
  rw [show ('.' :: ext : List Char) = [('.' : Char)] ++ ext from rfl]
  exact List.drop_left stem (['.'] ++ ext)

/-- Claim C6: both converters normalize the output extension before
writing — after `_ensure_pdf_extension` the (case-lowered) suffix is
exactly `.pdf`, and after `_ensure_docx_extension` it is exactly `.docx`,
whatever suffix the caller supplied. -/
theorem output_extension_normalized (name : String) (h : name ≠ "") :
    pyLower (pathSuffix (ensure_pdf_extension name)) = ".pdf" ∧
    pyLower (pathSuffix (ensure_docx_extension name)) = ".docx" := by
  constructor
  · unfold ensure_pdf_extension
    split
    · rename_i hcase
      unfold pathWithSuffix
      cases hidx : pathSuffixIdx name.data with
      | some i =>
        dsimp only
        have hi : 0 < i ∧ i + 1 < name.data.length := by
          unfold pathSuffixIdx at hidx
          cases hld : lastDotPos name.data with
          | none => rw [hld] at hidx; exact absurd hidx (by simp)
          | some j =>
            rw [hld] at hidx
            dsimp only at hidx
            split at hidx
            · rename_i hcond
              simp only [Option.some.injEq] at hidx
              rwa [← hidx]
            · exact absurd hidx (by simp)
        have hstem : name.data.take i ≠ [] := by
          intro hcontra
          have := congrArg List.length hcontra
          simp only [List.length_take, List.length_nil] at this
          omega
        have hshape : (name.data.take i) ++ (".pdf" : String).data =
            (name.data.take i) ++ '.' :: "pdf".data := rfl
        rw [hshape, pathSuffix_append_dot _ _ hstem (by decide) (by decide)]
        rfl
      | none =>
        dsimp only
        have hd : name.data ≠ [] := data_ne_nil name h
        have hshape : name ++ (".pdf" : String) =
            (name.data ++ '.' :: "pdf".data).asString := rfl
        rw [hshape, pathSuffix_append_dot _ _ hd (by decide) (by decide)]
        rfl
    · rename_i hcase
      simp only [ne_eq, Decidable.not_not] at hcase
      exact hcase
  · unfold ensure_docx_extension
    split
    · rename_i hcase
      unfold pathWithSuffix
      cases hidx : pathSuffixIdx name.data with
      | some i =>
        dsimp only
        have hi : 0 < i ∧ i + 1 < name.data.length := by
          unfold pathSuffixIdx at hidx
          cases hld : lastDotPos name.data with
          | none => rw [hld] at hidx; exact absurd hidx (by simp)
          | some j =>
            rw [hld] at hidx
            dsimp only at hidx
            split at hidx
            · rename_i hcond
              simp only [Option.some.injEq] at hidx
              rwa [← hidx]
            · exact absurd hidx (by simp)
        have hstem : name.data.take i ≠ [] := by
          intro hcontra
          have := congrArg List.length hcontra
          simp only [List.length_take, List.length_nil] at this
          omega
        have hshape : (name.data.take i) ++ (".docx" : String).data =
            (name.data.take i) ++ '.' :: "docx".data := rfl
        rw [hshape, pathSuffix_append_dot _ _ hstem (by decide) (by decide)]
        rfl
      | none =>
        dsimp only
        have hd : name.data ≠ [] := data_ne_nil name h
        have hshape : name ++ (".docx" : String) =
            (name.data ++ '.' :: "docx".data).asString := rfl
        rw [hshape, pathSuffix_append_dot _ _ hd (by decide) (by decide)]
        rfl
    · rename_i hcase
      simp only [ne_eq, Decidable.not_not] at hcase
      exact hcase

/-- Witness for C6 at the caller-supplied name `report.txt`. -/
theorem output_extension_normalized_witness :
    pyLower (pathSuffix (ensure_pdf_extension "report.txt")) = ".pdf" ∧
    pyLower (pathSuffix (ensure_docx_extension "report.txt")) = ".docx" :=
  output_extension_normalized "report.txt" (by decide)

example : ensure_pdf_extension "report.txt" = "report.pdf" := by decide
example : ensure_pdf_extension "report" = "report.pdf" := by decide
example : ensure_pdf_extension "report.PDF" = "report.PDF" := by decide
example : ensure_docx_extension "a.tar.gz" = "a.tar.docx" := by decide

/-! ## PDF watermark embedding and extraction
(`src/md2pdf/core/converters/pdf_converter.py`, `_embed_watermark`;
`src/md2pdf/utils/watermark_extractor.py`, `extract_watermark`) -/

/-- A PDF document as the watermark code sees it: page payloads, the info
metadata dictionary, and an optional XMP metadata stream. -/
structure PdfDocument where
  pages : List String
  info : List (String × String)
  xmpStream : Option String
deriving DecidableEq

/-- The XMP packet written by `_embed_watermark` (the f-string template with
the watermark interpolated, unescaped, into the `<md2pdf:watermark>`
element). -/
def xmpTemplate (watermark : String) : String :=
  "<?xpacket begin=\"\" id=\"W5M0MpCehiHzreSzNTczkc9d\"?>\n" ++
  "<x:xmpmeta xmlns:x=\"adobe:ns:meta/\">\n" ++
  "    <rdf:RDF xmlns:rdf=\"http://www.w3.org/1999/02/22-rdf-syntax-ns#\">\n" ++
  "        <rdf:Description rdf:about=\"\"\n" ++
  "            xmlns:dc=\"http://purl.org/dc/elements/1.1/\"\n" ++
  "            xmlns:md2pdf=\"http://md2pdf.com/ns/\">\n" ++
  "            <md2pdf:watermark>" ++ watermark ++ "</md2pdf:watermark>\n" ++
  "        </rdf:Description>\n" ++
  "    </rdf:RDF>\n" ++
  "</x:xmpmeta>\n" ++
  "<?xpacket end=\"w\"?>"

/-- Embedding of `_embed_watermark`: copy all pages into a fresh writer, set
the metadata dictionary (Producer, Creator, and the custom watermark key),
and mirror the watermark into an XMP metadata stream. -/
def embed_watermark (watermark : String) (reader : PdfDocument) : PdfDocument :=
  { pages := reader.pages,
    info := [("/Producer", "md2pdf"), ("/Creator", "md2pdf"),
             ("/MD2PDF_Watermark", watermark)],
    xmpStream := some (xmpTemplate watermark) }

/-- Containment of one character list in another, as Python's `in`. -/
def containsSub (needle hay : List Char) : Bool :=
  match splitAtFirst needle hay with
  | some _ => true
  | none => false

/-- Embedding of the XMP branch of `extract_watermark`: Python checks
`"md2pdf:watermark" in xmp_str` and then searches
`<md2pdf:watermark>(.*?)</md2pdf:watermark>`; the lazy group runs to the
first closing tag and (without DOTALL) may not span a newline. -/
def extractXmpWatermark (xmp : String) : Option String :=
  if containsSub "md2pdf:watermark".data xmp.data then
    match splitAtFirst "<md2pdf:watermark>".data xmp.data with
    | some (_, afterOpen) =>
      match splitAtFirst "</md2pdf:watermark>".data afterOpen with
      | some (grp, _) =>
        if containsSub ['\n'] grp then none else some grp.asString
      | none => none
    | none => none
  else none

/-- Embedding of `extract_watermark`: the custom metadata field is consulted
first; only when it is absent is the XMP stream searched. -/
def extract_watermark (doc : PdfDocument) : Option String :=
  match lookupAssoc "/MD2PDF_Watermark" doc.info with
  | some v => some v
  | none =>
    match doc.xmpStream with
    | some xmp => extractXmpWatermark xmp
    | none => none

set_option maxRecDepth 8192 in
/-- Claim C8: embedding a watermark stores it under `/MD2PDF_Watermark`,
mirrors it into an XMP `<md2pdf:watermark>` element, and extraction of the
resulting document returns exactly the original string; the metadata field
is consulted before the XMP stream (a document whose metadata field and XMP
stream disagree yields the metadata value). -/
theorem watermark_roundtrip (watermark : String) (reader : PdfDocument) :
    lookupAssoc "/MD2PDF_Watermark" (embed_watermark watermark reader).info =
      some watermark ∧
    (embed_watermark watermark reader).xmpStream =
      some (xmpTemplate watermark) ∧
    (∃ p s, xmpTemplate watermark =
      p ++ ("<md2pdf:watermark>" ++ watermark ++ "</md2pdf:watermark>") ++ s) ∧
    extract_watermark (embed_watermark watermark reader) = some watermark ∧
    (embed_watermark watermark reader).pages = reader.pages ∧
    (∀ doc : PdfDocument, ∀ w : String,
      lookupAssoc "/MD2PDF_Watermark" doc.info = some w →
      extract_watermark doc = some w) := by
  have hmeta : lookupAssoc "/MD2PDF_Watermark"
      (embed_watermark watermark reader).info = some watermark := by
    unfold embed_watermark
    dsimp only
    simp only [lookupAssoc]
    rw [if_neg (by decide), if_neg (by decide), if_pos trivial]
  refine ⟨hmeta, rfl, ?_, ?_, rfl, ?_⟩
  · refine ⟨"<?xpacket begin=\"\" id=\"W5M0MpCehiHzreSzNTczkc9d\"?>\n" ++
      "<x:xmpmeta xmlns:x=\"adobe:ns:meta/\">\n" ++
      "    <rdf:RDF xmlns:rdf=\"http://www.w3.org/1999/02/22-rdf-syntax-ns#\">\n" ++
      "        <rdf:Description rdf:about=\"\"\n" ++
      "            xmlns:dc=\"http://purl.org/dc/elements/1.1/\"\n" ++
      "            xmlns:md2pdf=\"http://md2pdf.com/ns/\">\n" ++
      "            ", "\n" ++
      "        </rdf:Description>\n" ++
      "    </rdf:RDF>\n" ++
      "</x:xmpmeta>\n" ++
      "<?xpacket end=\"w\"?>", ?_⟩
    unfold xmpTemplate
    apply String.ext
    simp [String.data_append]
  · unfold extract_watermark
    rw [hmeta]
  · intro doc w hw
    unfold extract_watermark
    rw [hw]

/-- Witness for C8: a concrete watermark round-trips, and a document whose
metadata and XMP stream disagree yields the metadata value (metadata first). -/
theorem watermark_roundtrip_witness :
    extract_watermark (embed_watermark "secret-123" ⟨["page1"], [], none⟩) =
      some "secret-123" ∧
    extract_watermark
        ⟨[], [("/MD2PDF_Watermark", "meta-wm")], some (xmpTemplate "xmp-wm")⟩ =
      some "meta-wm" :=
  ⟨(watermark_roundtrip "secret-123" ⟨["page1"], [], none⟩).2.2.2.1,
   (watermark_roundtrip "secret-123" ⟨["page1"], [], none⟩).2.2.2.2.2
     ⟨[], [("/MD2PDF_Watermark", "meta-wm")], some (xmpTemplate "xmp-wm")⟩
     "meta-wm" (by decide)⟩

/-! ## Word converter DOM walk
(`src/src/md2pdf/core/converters/word_converter.py`)

`_process_elements` iterates `soup.find_all([...])`, which yields matching
elements in document order including elements nested inside other matches;
each one is handed to `_process_single_element` independently. -/

mutual
/-- An HTML node as BeautifulSoup presents it (text or tag element). -/
inductive HtmlNode where
  | text (s : String)
  | elem (tagName : String) (children : HtmlNodeList)
/-- Children list of an element. -/
inductive HtmlNodeList where
  | nil
  | cons (n : HtmlNode) (rest : HtmlNodeList)
end

mutual
/-- BeautifulSoup `get_text()`: concatenation of all descendant text. -/
def getText : HtmlNode → String
  | .text s => s
  | .elem _ cs => getTextList cs
/-- Text concatenation (`get_text`) over a children list. -/
def getTextList : HtmlNodeList → String
  | .nil => ""
  | .cons n ns => getText n ++ getTextList ns
end

/-- The tag-name filter passed to `find_all` in `_process_elements`. -/
def wordTags : List String :=
  ["h1", "h2", "h3", "h4", "h5", "h6", "p", "ul", "ol", "li", "blockquote",
   "pre", "code"]

mutual
/-- BeautifulSoup `find_all` over a node: matching elements in document order, matching
ancestors before the matching descendants inside them. -/
def findAllW : HtmlNode → List HtmlNode
  | .text _ => []
  | .elem n cs =>
    (if n ∈ wordTags then [HtmlNode.elem n cs] else []) ++ findAllWList cs
/-- BeautifulSoup `find_all` over a children list. -/
def findAllWList : HtmlNodeList → List HtmlNode
  | .nil => []
  | .cons n ns => findAllW n ++ findAllWList ns
end

/-- A generated Word paragraph: its text, named style, and whether the runs
were given the monospace font override (`Courier New`). -/
structure WordPara where
  parText : String
  parStyle : String
  monoFont : Bool
deriving DecidableEq

/-- Embedding of `_apply_style_to_paragraph` for the element names reaching it
(`h1`..`h6` map to `Heading N`, `p` keeps `Normal`, the python-docx default
style of a fresh paragraph). -/
def applyStyleName (tagName : String) : String :=
  if tagName = "h1" then "Heading 1"
  else if tagName = "h2" then "Heading 2"
  else if tagName = "h3" then "Heading 3"
  else if tagName = "h4" then "Heading 4"
  else if tagName = "h5" then "Heading 5"
  else if tagName = "h6" then "Heading 6"
  else if tagName = "strong" then "Strong"
  else if tagName = "em" then "Emphasis"
  else "Normal"

/-- Embedding of `element.find_all("li", recursive=False)`: the direct `li` children. -/
def directLis : HtmlNodeList → List HtmlNode
  | .nil => []
  | .cons n ns =>
    (match n with
     | .elem "li" cs => [HtmlNode.elem "li" cs]
     | _ => []) ++ directLis ns

/-- Embedding of `_process_single_element`: dispatch one matched element to the
paragraph builders (`_add_text_paragraph`, `_add_list_elements`,
`_add_blockquote`, `_add_code_block`). -/
def processSingleElement : HtmlNode → List WordPara
  | .text _ => []
  | .elem tagName cs =>
    if tagName ∈ ["h1", "h2", "h3", "h4", "h5", "h6", "p"] then
      [⟨getText (.elem tagName cs), applyStyleName tagName, false⟩]
    else if tagName = "ul" ∨ tagName = "ol" then
      (directLis cs).map fun li =>
        ⟨getText li, if tagName = "ul" then "List Bullet" else "List Number",
         false⟩
    else if tagName = "blockquote" then
      [⟨getText (.elem tagName cs), "Quote", false⟩]
    else if tagName = "pre" ∨ tagName = "code" then
      [⟨getText (.elem tagName cs), "No Spacing", true⟩]
    else []

/-- Embedding of `_process_elements`: every `find_all` match is processed independently. -/
def processElements (doc : HtmlNodeList) : List WordPara :=
  (findAllWList doc).flatMap processSingleElement

/-- Claim C9: an element nested inside another convertible element is
matched both as part of its ancestor and on its own, so its text is emitted
more than once: `<pre><code>X</code></pre>` yields two code paragraphs each
containing X, and `<blockquote><p>Y</p></blockquote>` yields a quote
paragraph and a normal paragraph both containing Y. -/
theorem word_nested_elements_duplicated (x y : String) :
    processElements
        (.cons (.elem "pre" (.cons (.elem "code" (.cons (.text x) .nil)) .nil))
          .nil) =
      [⟨x, "No Spacing", true⟩, ⟨x, "No Spacing", true⟩] ∧
    processElements
        (.cons (.elem "blockquote"
          (.cons (.elem "p" (.cons (.text y) .nil)) .nil)) .nil) =
      [⟨y, "Quote", false⟩, ⟨y, "Normal", false⟩] := by
  constructor
  · have e : processElements
        (.cons (.elem "pre" (.cons (.elem "code" (.cons (.text x) .nil)) .nil))
          .nil) =
        [⟨(x ++ "") ++ "", "No Spacing", true⟩, ⟨x ++ "", "No Spacing", true⟩] :=
      rfl
    rw [e, string_append_empty, string_append_empty]
  · have e : processElements
        (.cons (.elem "blockquote"
          (.cons (.elem "p" (.cons (.text y) .nil)) .nil)) .nil) =
        [⟨(y ++ "") ++ "", "Quote", false⟩, ⟨y ++ "", "Normal", false⟩] :=
      rfl
    rw [e, string_append_empty, string_append_empty]

/-! ## Header composer and document assembler
(`src/src/processors/header_processor.py`,
`src/src/converters/base_converter.py`)

The header directory is modelled by a glob function (pattern to matching
file names), a binary reader returning the base64 payload of a file, and a
text reader; the markdown engine used for the header text is an abstract
function parameter, and "today" is passed in for `datetime.now().strftime`. -/

/-- The header-content directory as `HeaderProcessor` sees it. -/
structure HeaderFS where
  dirExists : Bool
  glob : String → List String
  readB64 : String → String
  readText : String → String

/-- The ordered extension probe list for the header logo. -/
def logoExtensions : List String := [".png", ".jpg", ".jpeg", ".svg", ".gif"]

/-- The MIME lookup dictionary of `process_header_content` (keyed by the
lowercased suffix; glob guarantees the suffix is one of the five keys). -/
def mimeFromSuffix (sfx : String) : String :=
  if sfx = ".png" then "image/png"
  else if sfx = ".jpg" then "image/jpeg"
  else if sfx = ".jpeg" then "image/jpeg"
  else if sfx = ".svg" then "image/svg+xml"
  else if sfx = ".gif" then "image/gif"
  else ""

/-- The per-extension logo probe loop: the first extension with a glob match
wins and its first file is embedded as a data URI. -/
def logoLoop (fs : HeaderFS) : List String → Option String
  | [] => none
  | ext :: rest =>
    match fs.glob ("*" ++ ext) with
    | [] => logoLoop fs rest
    | f :: _ =>
      some ("<img src=\"data:" ++ mimeFromSuffix (pyLower (pathSuffix f)) ++
        ";base64," ++ fs.readB64 f ++ "\" class=\"header-logo\" alt=\"Logo\">")

/-- Python `text_content.replace("#date#", today)`. -/
def replaceDateToken (today : String) (l : List Char) : List Char :=
  match h : splitAtFirst "#date#".data l with
  | some (a, b) => a ++ today.data ++ replaceDateToken today b
  | none => l
termination_by l.length
decreasing_by
  have he := splitAtFirst_eq_append h
  have hlen := congrArg List.length he
  simp only [List.length_append, List.length_cons, List.length_nil] at hlen
  omega

/-- The markdown half of `process_header_content`: first `*.md` file, date
placeholder substituted, converted by the plain markdown engine. -/
def firstTextHtml (fs : HeaderFS) (today : String)
    (mdConvert : String → String) : Option String :=
  match fs.glob "*.md" with
  | [] => none
  | f :: _ =>
    some (mdConvert (replaceDateToken today (fs.readText f).data).asString)

/-- Embedding of `process_header_content`. -/
def process_header_content (fs : HeaderFS) (today : String)
    (mdConvert : String → String) : Option String × Option String :=
  if fs.dirExists then
    (logoLoop fs logoExtensions, firstTextHtml fs today mdConvert)
  else (none, none)

/-- The fixed CSS block returned by `generate_header_css` (emitted only when
header output is non-empty). -/
def generate_header_css : String :=
  "\n" ++
  "        /* Adjust page setup for header - increase top margin */\n" ++
  "        @page \x7b\n" ++
  "            margin-top: 3.5cm !important;  /* Increase from 2.5cm to make room for header */\n" ++
  "        \x7d\n" ++
  "        \n" ++
  "        /* Header wrapper that becomes a running element */\n" ++
  "        .header-wrapper \x7b\n" ++
  "            position: running(header);\n" ++
  "            width: 100%;\n" ++
  "            margin: 0;\n" ++
  "            padding: 0;\n" ++
  "        \x7d\n" ++
  "        \n" ++
  "        /* Place the running header in the top margin area */\n" ++
  "        @page \x7b\n" ++
  "            @top-left-corner \x7b\n" ++
  "                content: none;\n" ++
  "            \x7d\n" ++
  "            @top-left \x7b\n" ++
  "                content: element(header);\n" ++
  "                width: 100%;\n" ++
  "                vertical-align: middle;\n" ++
  "                margin: 0;\n" ++
  "                padding: 0;\n" ++
  "            \x7d\n" ++
  "            @top-center \x7b\n" ++
  "                content: none;  /* Override any existing top-center content */\n" ++
  "            \x7d\n" ++
  "            @top-right \x7b\n" ++
  "                content: none;\n" ++
  "            \x7d\n" ++
  "            @top-right-corner \x7b\n" ++
  "                content: none;\n" ++
  "            \x7d\n" ++
  "        \x7d\n" ++
  "        \n" ++
  "        /* Header container - no margins needed as it\x27s in the margin box */\n" ++
  "        .header-container \x7b\n" ++
  "            display: flex;\n" ++
  "            justify-content: space-between;\n" ++
  "            align-items: center;\n" ++
  "            width: 100%;\n" ++
  "            padding: 0;\n" ++
  "            margin: 0;\n" ++
  "            height: auto;\n" ++
  "        \x7d\n" ++
  "        \n" ++
  "        .header-text \x7b\n" ++
  "            flex: 1;\n" ++
  "            font-size: 10pt;\n" ++
  "            line-height: 1.3;\n" ++
  "            text-align: left;\n" ++
  "            margin: 0;\n" ++
  "            padding: 0;\n" ++
  "            padding-right: 15pt;\n" ++
  "        \x7d\n" ++
  "        \n" ++
  "        .header-text p \x7b\n" ++
  "            margin: 0 0 2pt 0;\n" ++
  "            padding: 0;\n" ++
  "            text-indent: 0 !important;\n" ++
  "            text-align: left !important;\n" ++
  "        \x7d\n" ++
  "        \n" ++
  "        .header-text h1, .header-text h2, .header-text h3 \x7b\n" ++
  "            font-size: 11pt;\n" ++
  "            margin: 0 0 2pt 0;\n" ++
  "            font-weight: 600;\n" ++
  "        \x7d\n" ++
  "        \n" ++
  "        .header-text strong \x7b\n" ++
  "            font-weight: 600;\n" ++
  "        \x7d\n" ++
  "        \n" ++
  "        .header-logo-wrapper \x7b\n" ++
  "            flex-shrink: 0;\n" ++
  "        \x7d\n" ++
  "        \n" ++
  "        .header-logo \x7b\n" ++
  "            max-height: 35pt;\n" ++
  "            width: auto;\n" ++
  "            object-fit: contain;\n" ++
  "            display: block;\n" ++
  "            border: none !important;\n" ++
  "            border-radius: 0 !important;\n" ++
  "            box-shadow: none !important;\n" ++
  "            margin: 0 !important;\n" ++
  "        \x7d\n" ++
  "        \n" ++
  "        /* Reset body margins */\n" ++
  "        body \x7b\n" ++
  "            margin: 0;\n" ++
  "            padding: 0;\n" ++
  "        \x7d\n" ++
  "        \n" ++
  "        /* Don\x27t override content margins - let the style handle them */\n" ++
  "        .content \x7b\n" ++
  "            /* margin and padding handled by the style */\n" ++
  "        \x7d\n" ++
  "        "

/-- Embedding of `create_header_html`: empty output unless the header is
enabled and the directory provided a logo or text; the CSS block is emitted
only alongside non-empty header HTML. -/
def create_header_html (fs : HeaderFS) (today : String)
    (mdConvert : String → String) (include_header : Bool) : String × String :=
  if include_header then
    match process_header_content fs today mdConvert with
    | (logoHtml, textHtml) =>
      if logoHtml.isSome ∨ textHtml.isSome then
        ("<div class=\"header-wrapper\"><div class=\"header-container\">" ++
          (match textHtml with
           | some t => "<div class=\"header-text\">" ++ t ++ "</div>"
           | none => "") ++
          (match logoHtml with
           | some l =>
             (if textHtml.isSome then ""
              else "<div class=\"header-text\"></div>") ++
             "<div class=\"header-logo-wrapper\">" ++ l ++ "</div>"
           | none => "") ++
          "</div></div>",
         generate_header_css)
      else ("", "")
  else ("", "")

/-- The document template of `_create_html_document` up to the content
container's class attribute. -/
def htmlDocPre (cssStyles pygmentsCss titleStem headerCss headerHtml : String) :
    String :=
  "\n        <!DOCTYPE html>\n        <html lang=\"en\">\n        <head>\n" ++
  "            <meta charset=\"UTF-8\">\n" ++
  "            <meta name=\"viewport\" content=\"width=device-width, initial-scale=1.0\">\n" ++
  "            <title>" ++ titleStem ++ "</title>\n            <style>\n" ++
  "                " ++ cssStyles ++ "\n                " ++ pygmentsCss ++
  "\n                " ++ headerCss ++
  "\n            </style>\n        </head>\n        <body>\n            " ++
  headerHtml ++ "\n            <div class=\"content"

/-- The document template after the content container's class attribute. -/
def htmlDocPost (htmlContent : String) : String :=
  "\">\n                " ++ htmlContent ++
  "\n            </div>\n        </body>\n        </html>\n        "

/-- Embedding of `BaseConverter._create_html_document`: build the header,
then interpolate everything into the fixed document template; the content
container carries the extra ` has-header` class whenever the header flag is
set, regardless of what the header directory contained. -/
def create_html_document (cssStyles pygmentsCss titleStem : String)
    (fs : HeaderFS) (today : String) (mdConvert : String → String)
    (include_header : Bool) (htmlContent : String) : String :=
  htmlDocPre cssStyles pygmentsCss titleStem
      (create_header_html fs today mdConvert include_header).2
      (create_header_html fs today mdConvert include_header).1 ++
    (if include_header then " has-header" else "") ++
    htmlDocPost htmlContent

theorem logoLoop_none (fs : HeaderFS) (hglob : ∀ pat, fs.glob pat = []) :
    ∀ exts, logoLoop fs exts = none := by
  intro exts
  induction exts with
  | nil => rfl
  | cons e r ih => simp [logoLoop, hglob, ih]

set_option maxRecDepth 100000 in
/-- Counterexample to C4 as stated: with the header flag enabled and an
empty header directory the header HTML and CSS are both empty, but the
assembled document is not byte-identical to the header-disabled document —
the content container's class attribute still gains ` has-header`. -/
theorem header_empty_dir_counterexample :
    create_header_html ⟨true, fun _ => [], fun _ => "", fun _ => ""⟩
        "01 Jan 2025" (fun s => s) true = ("", "") ∧
    create_html_document "CSS" "PYG" "doc"
        ⟨true, fun _ => [], fun _ => "", fun _ => ""⟩
        "01 Jan 2025" (fun s => s) true "<p>x</p>" ≠
      create_html_document "CSS" "PYG" "doc"
        ⟨true, fun _ => [], fun _ => "", fun _ => ""⟩
        "01 Jan 2025" (fun s => s) false "<p>x</p>" := by
  refine ⟨rfl, by decide⟩

/-- Claim C4 (amended): with the header flag enabled and a header directory
containing neither an image nor a Markdown file, the header HTML and CSS are
both empty strings, and the assembled document equals the header-disabled
document except for the content container's class attribute, which reads
`content has-header` instead of `content`. -/
theorem header_empty_dir_amended (cssStyles pygmentsCss titleStem today
    htmlContent : String) (fs : HeaderFS) (mdConvert : String → String)
    (hglob : ∀ pat, fs.glob pat = []) :
    create_header_html fs today mdConvert true = ("", "") ∧
    (∀ b : Bool,
      create_html_document cssStyles pygmentsCss titleStem fs today mdConvert
          b htmlContent =
        htmlDocPre cssStyles pygmentsCss titleStem "" "" ++
          (if b then " has-header" else "") ++ htmlDocPost htmlContent) := by
  have htext : firstTextHtml fs today mdConvert = none := by
    unfold firstTextHtml
    rw [hglob]
  have hproc : process_header_content fs today mdConvert = (none, none) := by
    unfold process_header_content
    rw [logoLoop_none fs hglob logoExtensions, htext]
    split <;> rfl
  have hch : create_header_html fs today mdConvert true = ("", "") := by
    unfold create_header_html
    rw [hproc]
    simp
  refine ⟨hch, ?_⟩
  intro b
  cases b
  · rfl
  · unfold create_html_document
    rw [hch]

/-- Witness for the amended C4 at a concrete empty header directory. -/
theorem header_empty_dir_amended_witness :
    create_header_html ⟨true, fun _ => [], fun _ => "", fun _ => ""⟩
        "01 Jan 2025" (fun s => s) true = ("", "") ∧
    create_html_document "A" "B" "t"
        ⟨true, fun _ => [], fun _ => "", fun _ => ""⟩
        "01 Jan 2025" (fun s => s) true "body" =
      htmlDocPre "A" "B" "t" "" "" ++ (if true then " has-header" else "") ++
        htmlDocPost "body" :=
  ⟨(header_empty_dir_amended "A" "B" "t" "01 Jan 2025" "body"
      ⟨true, fun _ => [], fun _ => "", fun _ => ""⟩ (fun s => s)
      (fun _ => rfl)).1,
   (header_empty_dir_amended "A" "B" "t" "01 Jan 2025" "body"
      ⟨true, fun _ => [], fun _ => "", fun _ => ""⟩ (fun s => s)
      (fun _ => rfl)).2 true⟩
